import Mathlib

/-!
Verification of the tss-ecdsa-cli coordination layer.

This file shallowly embeds the protocol-orchestration core of the
repository (`src/common/mod.rs`, `src/curves/mod.rs`,
`src/protocols/eddsa/keygen.rs`, `src/protocols/ecdsa/curv7_conversion.rs`,
`src/protocols/ecdsa/mod.rs`) and proves the specified properties about it.

Modelling conventions:
* wall-clock time is a `Nat` tick counter; every `thread::sleep(delay)` of
  the source advances the clock by one tick, so the env-configured timeout
  (seconds) is measured in the same ticks;
* the rendezvous store is a function `Nat → String → Option String` giving
  the value served for a key at a given tick (`none` models the relay's
  "not found" answer);
* a Rust panic-style abort is an explicit `fatal`-flavoured constructor
  of the result type, and loops carry an explicit fuel argument whose
  exhaustion is a separate `fuelOut` constructor — we prove `fuelOut` is
  unreachable for the fuel the wrappers pass, which is the formal content
  of "the loop cannot run forever";
* `u16`/`u64`/`usize` quantities are `Nat` (no arithmetic in the embedded
  code can overflow 2^16-sized party counts);
* external cryptographic primitives (curv points/scalars, dlog proofs, the
  aes-gcm crate) are embedded through their interfaces: scalars live in an
  arbitrary `AddCommMonoid` (resp. `ZMod` of the secp256k1 group order), a
  dlog proof is represented by its verification outcome, and the AEAD
  cipher is an explicit scheme record together with the two contract
  properties the crate documents.
-/

/-- One decimal digit of `str::parse::<u64>`. -/
def digitVal (c : Char) : Option Nat :=
  if '0' ≤ c ∧ c ≤ '9' then some (c.toNat - '0'.toNat) else none

/-- Accumulator loop of `str::parse::<u64>` over the characters. -/
def parseU64Go : List Char → Nat → Option Nat
  | [], acc => some acc
  | c :: rest, acc =>
    match digitVal c with
    | some d => parseU64Go rest (acc * 10 + d)
    | none => none

/-- `str::parse::<u64>()`: all-digit non-empty strings parse, anything else
is an error (which the source turns into a panic via `unwrap`). -/
def parseU64 : List Char → Option Nat
  | [] => none
  | c :: rest => parseU64Go (c :: rest) 0

/-- `std::env::var(NAME).unwrap_or("30".to_string()).parse::<u64>()`
(src/common/mod.rs:187-188, 230-231, 283-284): the environment variable is
`none` when unset, in which case the default string `"30"` is parsed.  Both
`TSS_CLI_POLL_TIMEOUT` and `TSS_CLI_SIGNUP_TIMEOUT` use this exact shape. -/
def timeoutFromEnv (envVar : Option (List Char)) : Option Nat :=
  parseU64 (envVar.getD ['3', '0'])

/-- Broadcast store key: the composite `i-round-sender_uuid` the source
builds with format! (src/common/mod.rs:150, 191). -/
def broadcastKey (i : Nat) (round sender_uuid : String) : String :=
  toString i ++ "-" ++ round ++ "-" ++ sender_uuid

/-- P2p store key: the composite `i-party_num-round-sender_uuid` the source
builds with format! (src/common/mod.rs:167, 234). -/
def p2pKey (i j : Nat) (round sender_uuid : String) : String :=
  toString i ++ "-" ++ toString j ++ "-" ++ round ++ "-" ++ sender_uuid

/-- Outcome of polling one key: a value (with the tick at which it was
read), a timeout panic (with the tick at which the panic fired), or fuel
exhaustion (proved unreachable below). -/
inductive PollOut where
  | ok (v : String) (t : Nat)
  | fatal (t : Nat)
  | fuelOut
deriving DecidableEq

/-- Inner `loop` of `poll_for_broadcasts` (src/common/mod.rs:194-215) for a
single awaited key.  One iteration: sleep `delay` (one tick), `get` the key;
on success break with the value; otherwise panic if strictly more than
`timeout` has elapsed since `start_time`, else sleep `delay` again (a second
tick) and retry. -/
def pollBLoop (store : Nat → String → Option String) (key : String) (timeout start : Nat) :
    Nat → Nat → PollOut
  | fuel, t =>
    match store (t + 1) key with
    | some v => PollOut.ok v (t + 1)
    | none =>
      if timeout < t + 1 - start then PollOut.fatal (t + 1)
      else
        match fuel with
        | 0 => PollOut.fuelOut
        | fuel' + 1 => pollBLoop store key timeout start fuel' (t + 2)

/-- Inner `loop` of `poll_for_p2p` (src/common/mod.rs:237-258) for a single
awaited key.  Identical to `pollBLoop` except that the timeout check sits
inside the error arm and there is only the one sleep before the `get`:
a failing iteration advances the clock by one tick, not two. -/
def pollPLoop (store : Nat → String → Option String) (key : String) (timeout start : Nat) :
    Nat → Nat → PollOut
  | fuel, t =>
    match store (t + 1) key with
    | some v => PollOut.ok v (t + 1)
    | none =>
      if timeout < t + 1 - start then PollOut.fatal (t + 1)
      else
        match fuel with
        | 0 => PollOut.fuelOut
        | fuel' + 1 => pollPLoop store key timeout start fuel' (t + 1)

/-- Result of a whole collection round: the accumulated `ans_vec` (with the
final clock), a timeout panic naming the ordinal that never answered (with
the panic tick), a panic on a malformed timeout env variable, or fuel
exhaustion (proved unreachable). -/
inductive RunOut where
  | ok (vs : List String) (t : Nat)
  | fatal (i : Nat) (t : Nat)
  | parseFatal
  | fuelOut
deriving DecidableEq

/-- The for-loop of `poll_for_broadcasts` over `i in 1..=n`, skipping
`i == party_num` (src/common/mod.rs:189-217), iterating over the given ordinal list and
threading the clock.  `start_time = Instant::now()` is taken afresh for each
ordinal, so each key's loop starts its own timeout window at the current
clock. -/
def pollBRounds (store : Nat → String → Option String) (party_num timeout : Nat)
    (round sender_uuid : String) : List Nat → Nat → RunOut
  | [], t => RunOut.ok [] t
  | i :: rest, t =>
    if i = party_num then pollBRounds store party_num timeout round sender_uuid rest t
    else
      match pollBLoop store (broadcastKey i round sender_uuid) timeout t (timeout + 1) t with
      | PollOut.ok v t' =>
        match pollBRounds store party_num timeout round sender_uuid rest t' with
        | RunOut.ok vs t'' => RunOut.ok (v :: vs) t''
        | r => r
      | PollOut.fatal t' => RunOut.fatal i t'
      | PollOut.fuelOut => RunOut.fuelOut

/-- The for-loop of `poll_for_p2p` over `i in 1..=n`, skipping
`i == party_num` (src/common/mod.rs:232-260). -/
def pollPRounds (store : Nat → String → Option String) (party_num timeout : Nat)
    (round sender_uuid : String) : List Nat → Nat → RunOut
  | [], t => RunOut.ok [] t
  | i :: rest, t =>
    if i = party_num then pollPRounds store party_num timeout round sender_uuid rest t
    else
      match pollPLoop store (p2pKey i party_num round sender_uuid) timeout t (timeout + 1) t with
      | PollOut.ok v t' =>
        match pollPRounds store party_num timeout round sender_uuid rest t' with
        | RunOut.ok vs t'' => RunOut.ok (v :: vs) t''
        | r => r
      | PollOut.fatal t' => RunOut.fatal i t'
      | PollOut.fuelOut => RunOut.fuelOut

/-- `poll_for_broadcasts` (src/common/mod.rs:178-219): read the timeout from
`TSS_CLI_POLL_TIMEOUT` (panicking on an unparsable value), then poll every
ordinal `1..=n` other than `party_num` in ascending order. -/
def poll_for_broadcasts (store : Nat → String → Option String) (party_num n : Nat)
    (round sender_uuid : String) (envPollTimeout : Option (List Char)) (t0 : Nat) : RunOut :=
  match timeoutFromEnv envPollTimeout with
  | none => RunOut.parseFatal
  | some timeout => pollBRounds store party_num timeout round sender_uuid (List.range' 1 n) t0

/-- `poll_for_p2p` (src/common/mod.rs:221-262). -/
def poll_for_p2p (store : Nat → String → Option String) (party_num n : Nat)
    (round sender_uuid : String) (envPollTimeout : Option (List Char)) (t0 : Nat) : RunOut :=
  match timeoutFromEnv envPollTimeout with
  | none => RunOut.parseFatal
  | some timeout => pollPRounds store party_num timeout round sender_uuid (List.range' 1 n) t0

/-- A collection round's outcome with clock values erased: what a caller can
observe apart from timing. -/
inductive ObsRun where
  | ok (vs : List String)
  | fatal (i : Nat)
  | parseFatal
  | fuelOut
deriving DecidableEq

/-- Erase the clock components of a `RunOut`. -/
def obsRun : RunOut → ObsRun
  | RunOut.ok vs _ => ObsRun.ok vs
  | RunOut.fatal i _ => ObsRun.fatal i
  | RunOut.parseFatal => ObsRun.parseFatal
  | RunOut.fuelOut => ObsRun.fuelOut

/-- `let retries = 3;` in `postb` (src/common/mod.rs:129). -/
def retries : Nat := 3

/-- The attempt indices `postb` actually performs: Rust's `for _i in
1..retries` iterates over `1..retries-1` inclusive (src/common/mod.rs:131). -/
def postbAttempts : List Nat := List.range' 1 (retries - 1)

/-- Body of `postb`'s retry loop (src/common/mod.rs:131-139): `net i` is the
outcome of the `i`-th HTTP POST (`some body` on any HTTP response, `none` on
a connection failure, after which the loop sleeps 250 ms and retries). -/
def postbGo (net : Nat → Option String) : List Nat → Option String
  | [] => none
  | i :: rest =>
    match net i with
    | some r => some r
    | none => postbGo net rest

/-- `postb` (src/common/mod.rs:124-141): returns the first successful
response, or `none` (`TransportError::Unreachable`) once the attempt list is
exhausted. -/
def postb (net : Nat → Option String) : Option String :=
  postbGo net postbAttempts

/-- `postb` instrumented with the number of POST attempts it issues. -/
def postbTraceGo (net : Nat → Option String) : List Nat → Option String × Nat
  | [] => (none, 0)
  | i :: rest =>
    match net i with
    | some r => (some r, 1)
    | none =>
      match postbTraceGo net rest with
      | (res, c) => (res, c + 1)

/-- Result and attempt count of `postb`. -/
def postbTrace (net : Nat → Option String) : Option String × Nat :=
  postbTraceGo net postbAttempts

/-- `AES_KEY_BYTES_LEN` (src/common/mod.rs:26). -/
def AES_KEY_BYTES_LEN : Nat := 32

/-- The aes-gcm crate's cipher, through its interface: `enc key nonce m` is
the sealed ciphertext (tag included), `dec key nonce c` is `some` plaintext
or `none` on an authentication failure.  Bytes are `List Nat`. -/
structure AEADScheme where
  enc : List Nat → List Nat → List Nat → List Nat
  dec : List Nat → List Nat → List Nat → Option (List Nat)

/-- The crate's correctness contract: unsealing a genuine seal with the same
key and nonce returns the plaintext. -/
def AEADScheme.Correct (S : AEADScheme) : Prop :=
  ∀ k n m, S.dec k n (S.enc k n m) = some m

/-- The crate's authentication contract: unsealing succeeds only on a
ciphertext that is the genuine seal, under the presented key and nonce, of
the plaintext returned.  A wrong key or a tampered ciphertext/nonce yields a
pack that is not a genuine seal under the presented key, so decryption
fails. -/
def AEADScheme.Authentic (S : AEADScheme) : Prop :=
  ∀ k n c p, S.dec k n c = some p → c = S.enc k n p

/-- The `AEAD` struct (src/common/mod.rs:29-32).  The `tag` field carries
the nonce, exactly as the source stores it. -/
structure AEAD where
  ciphertext : List Nat
  tag : List Nat
deriving DecidableEq

/-- `aes_encrypt` (src/common/mod.rs:96-112): seal under a fresh random
nonce (the nonce is a parameter here, standing for the `OsRng` draw) and
ship the nonce in the `tag` field. -/
def aes_encrypt (S : AEADScheme) (key nonce plaintext : List Nat) : AEAD :=
  { ciphertext := S.enc key nonce plaintext, tag := nonce }

/-- `aes_decrypt` (src/common/mod.rs:114-122): unseal with the nonce taken
from the `tag` field; `none` models the `unwrap` panic on a decryption
failure. -/
def aes_decrypt (S : AEADScheme) (key : List Nat) (aead_pack : AEAD) : Option (List Nat) :=
  S.dec key aead_pack.tag aead_pack.ciphertext

/-- A concrete scheme satisfying the crate's contract (used to witness that
the contract hypotheses are satisfiable): the seal is an injective encoding
of key, nonce and plaintext. -/
def idealAEAD : AEADScheme where
  enc k n m := [Nat.pair (Encodable.encode k) (Nat.pair (Encodable.encode n) (Encodable.encode m))]
  dec k n c :=
    match c with
    | [x] =>
      if (Nat.unpair x).1 = Encodable.encode k ∧
          (Nat.unpair (Nat.unpair x).2).1 = Encodable.encode n then
        some (Denumerable.ofNat (List Nat) (Nat.unpair (Nat.unpair x).2).2)
      else none
    | _ => none

/-- The `SigningPartySignup` relay response (src/common/mod.rs:50-55). -/
structure SigningPartySignup where
  party_order : Nat
  party_uuid : String
  room_uuid : String
  total_joined : Nat
deriving DecidableEq

/-- Outcome of `signup`: success (party number, room uuid, total joined), a
panic on a relay error message, the panic "Could not get room uuid
after N seconds of tries", a panic on an unparsable timeout env variable,
or fuel exhaustion (unreachable under a stalled quorum). -/
inductive SignupOut where
  | ok (number : Nat) (uuid : String) (total : Nat)
  | fatalErr (e : String)
  | fatalNoRoom
  | parseFatal
  | fuelOut
deriving DecidableEq

/-- The `party_signup.number != party_order` update of the reconciliation
loop (src/common/mod.rs:304-307): the latest relay-assigned order is
adopted. -/
def adoptOrder (number : Nat) (r : SigningPartySignup) : Nat :=
  if number ≠ r.party_order then r.party_order else number

/-- The `total_joined != last_total_joined` update of the reconciliation
loop (src/common/mod.rs:309-314): returns the new
`(last_total_joined, reset-instant)` pair, the instant being the current
tick when the joined count changed. -/
def resetTimer (lastTotal resetT tNow : Nat) (r : SigningPartySignup) : Nat × Nat :=
  if r.total_joined ≠ lastTotal then (r.total_joined, tNow) else (lastTotal, resetT)

/-- The `while party_signup.uuid.is_empty()` loop of `signup`
(src/common/mod.rs:296-323): sleep 100 ms (one tick), repost, adopt the
response, then break once strictly more than `timeout` has elapsed since the
last reset instant; an empty uuid after the loop is the fatal "Could not get
room uuid" panic (src/common/mod.rs:324-326). -/
def signupLoop (resp : Nat → Except String SigningPartySignup) (timeout : Nat) :
    Nat → Nat → Nat → String → Nat → Nat → Nat → SignupOut
  | 0, k, number, uuid, lastTotal, resetT, t =>
    if uuid = "" then
      match resp k with
      | Except.error e => SignupOut.fatalErr e
      | Except.ok r =>
        if timeout < t + 1 - (resetTimer lastTotal resetT (t + 1) r).2 then
          if r.room_uuid = "" then SignupOut.fatalNoRoom
          else SignupOut.ok (adoptOrder number r) r.room_uuid
            (resetTimer lastTotal resetT (t + 1) r).1
        else SignupOut.fuelOut
    else SignupOut.ok number uuid lastTotal
  | fuel + 1, k, number, uuid, lastTotal, resetT, t =>
    if uuid = "" then
      match resp k with
      | Except.error e => SignupOut.fatalErr e
      | Except.ok r =>
        if timeout < t + 1 - (resetTimer lastTotal resetT (t + 1) r).2 then
          if r.room_uuid = "" then SignupOut.fatalNoRoom
          else SignupOut.ok (adoptOrder number r) r.room_uuid
            (resetTimer lastTotal resetT (t + 1) r).1
        else
          signupLoop resp timeout fuel (k + 1) (adoptOrder number r) r.room_uuid
            (resetTimer lastTotal resetT (t + 1) r).1
            (resetTimer lastTotal resetT (t + 1) r).2 (t + 1)
    else SignupOut.ok number uuid lastTotal

/-- `signup` (src/common/mod.rs:274-335): parse `TSS_CLI_SIGNUP_TIMEOUT`
(default 30), issue the initial signup post (`first` is its parsed answer,
`Except.error` being the relay's error, on which the source panics), then
run the reconciliation loop starting from the first response's order, room
uuid and joined count, with the inactivity instant taken at tick 0. -/
def signup (first : Except String SigningPartySignup)
    (resp : Nat → Except String SigningPartySignup)
    (envSignupTimeout : Option (List Char)) : SignupOut :=
  match timeoutFromEnv envSignupTimeout with
  | none => SignupOut.parseFatal
  | some timeout =>
    match first with
    | Except.error e => SignupOut.fatalErr e
    | Except.ok r =>
      signupLoop resp timeout (timeout + 2) 0 r.party_order r.room_uuid r.total_joined 0 0

/-- Outcome of `verify_dlog_proofs` (src/curves/mod.rs:16-32): `Ok(())`,
`Err(Error::InvalidKey)`, or a failed entry assertion (a panic). -/
inductive VerifyOut where
  | ok
  | invalidKey
  | assertFail
deriving DecidableEq

/-- `verify_dlog_proofs` (src/curves/mod.rs:16-32).  A dlog proof of the
external curv crate is embedded as its verification outcome
(`DLogProof::verify(..).is_ok()`), so `dlog_proofs_vec : List Bool`.  The
two `assert_eq!` entry assertions panic on a length mismatch; otherwise the
proofs at indices `0..y_vec_len` are checked. -/
def verify_dlog_proofs (share_count : Nat) (dlog_proofs_vec : List Bool) (y_vec_len : Nat) :
    VerifyOut :=
  if y_vec_len = share_count then
    if dlog_proofs_vec.length = share_count then
      if (List.range y_vec_len).all (fun i => dlog_proofs_vec.getD i false) then VerifyOut.ok
      else VerifyOut.invalidKey
    else VerifyOut.assertFail
  else VerifyOut.assertFail

/-- Modelled from the spec: `exchange_data` lives in
src/protocols/eddsa/signer.rs, which is not among the provided sources; per
§4.3 and the ordinal-insertion rule of §4.6 it broadcasts the caller's own
payload, collects every other ordinal's payload in ascending-ordinal order
via `poll_for_broadcasts`, and inserts the caller's own contribution at
index `self_ordinal - 1`, yielding the full ordinal-ordered vector of all
`n` parties' payloads (`f i` being ordinal `i`'s payload). -/
def exchange_data {α : Type} (f : Nat → α) (party_num_int n : Nat) : List α :=
  List.insertIdx (party_num_int - 1) (f party_num_int)
    (((List.range' 1 n).filter (fun i => i ≠ party_num_int)).map f)

/-- `let (head, tail) = chain_codes.split_at(1); tail.iter().fold(head[0],
|acc, x| acc + x)` (src/curves/mod.rs:72-73); `none` is the index panic on
an empty vector. -/
def foldSum {α : Type} [Add α] : List α → Option α
  | [] => none
  | h :: t => some (t.foldl (· + ·) h)

/-- `generate_shared_chain_code` (src/curves/mod.rs:36-76): round 0
exchanges dlog proofs of each party's random scalar (a proof is embedded as
its verification outcome `proofOk i`), `verify_dlog_proofs` must pass
(`.expect("bad dlog proof for chain code")` panics otherwise, as does a
failed entry assertion), then round 1 exchanges the scalars themselves
(`contrib i` is party `i`'s `c_i`) and folds them with `+`. -/
def generate_shared_chain_code {α : Type} [Add α] (contrib : Nat → α) (proofOk : Nat → Bool)
    (party_num_int parties_num share_count : Nat) : Option α :=
  match verify_dlog_proofs share_count (exchange_data proofOk party_num_int parties_num)
      parties_num with
  | VerifyOut.ok => foldSum (exchange_data contrib party_num_int parties_num)
  | _ => none

/-- Fuel-indexed big-endian byte expansion; `beBytes` instantiates the fuel
so that it never runs out. -/
def beBytesAux : Nat → Nat → List Nat
  | 0, _ => []
  | fuel + 1, n => if n = 0 then [] else beBytesAux fuel (n / 256) ++ [n % 256]

/-- `BigInt::to_bytes` of the curv crate: minimal big-endian bytes of a
non-negative integer (`0` yields the empty vector). -/
def beBytes (n : Nat) : List Nat :=
  beBytesAux n n

/-- Reading a byte vector as a big-endian integer (the inverse direction,
used to state what "big-endian bytes" means). -/
def fromBE (bytes : List Nat) : Nat :=
  bytes.foldl (fun a b => 256 * a + b) 0

/-- Transport-encryption key derivation of `run_keygen`
(src/protocols/eddsa/keygen.rs:113-120): `x` is the x-coordinate of
`decom_j.y_i * own_private_key` (the curve multiplication is the external
crate's); the key is `vec![0u8; AES_KEY_BYTES_LEN - key_bytes.len()]`
extended with the big-endian bytes.  When the byte string is longer than 32
the `usize` subtraction panics, modelled as `none`. -/
def deriveEncKey (x : Nat) : Option (List Nat) :=
  if (beBytes x).length ≤ AES_KEY_BYTES_LEN then
    some (List.replicate (AES_KEY_BYTES_LEN - (beBytes x).length) 0 ++ beBytes x)
  else none

/-- The order of the secp256k1 group, the modulus of `Scalar<Secp256k1>`. -/
def secp256k1GroupOrder : Nat :=
  115792089237316195423570985008687907852837564279074904382605163141518161494337

/-- The old key-share bundle layout read by `convert_store_file`
(src/protocols/ecdsa/curv7_conversion.rs:73-87): six components, no chain
code.  Component types are abstract (they belong to external crates). -/
structure OldEcdsaStore (K SK V P G : Type) where
  party_keys : K
  shared_keys : SK
  party_id : Nat
  vss_scheme_vec : List V
  paillier_key_vector : List P
  y_sum : G

/-- The new key-share bundle layout written by `convert_store_file` and read
back by `run_pubkey_or_sign` (src/protocols/ecdsa/mod.rs:74-90): the chain
code scalar sits second. -/
structure NewEcdsaStore (K SK V P G : Type) where
  party_keys : K
  chain_code : ZMod secp256k1GroupOrder
  shared_keys : SK
  party_id : Nat
  vss_scheme_vec : List V
  paillier_key_vector : List P
  y_sum : G

/-- `let fixed_chain_code = Scalar::<Secp256k1>::from(1 as u16);`
(src/protocols/ecdsa/curv7_conversion.rs:113). -/
def fixed_chain_code : ZMod secp256k1GroupOrder := 1

/-- `convert_store_file` (src/protocols/ecdsa/curv7_conversion.rs:68-127):
each component is converted by the corresponding curv7 conversion function
(abstract here), the Paillier vector is passed through, and the chain-code
slot is filled with `fixed_chain_code`. -/
def convert_store_file {OK OSK OV OG K SK V P G : Type}
    (convKeys : OK → K) (convShared : OSK → SK) (convVss : OV → V) (convPoint : OG → G)
    (old : OldEcdsaStore OK OSK OV P OG) : NewEcdsaStore K SK V P G :=
  { party_keys := convKeys old.party_keys
    chain_code := fixed_chain_code
    shared_keys := convShared old.shared_keys
    party_id := old.party_id
    vss_scheme_vec := old.vss_scheme_vec.map convVss
    paillier_key_vector := old.paillier_key_vector
    y_sum := convPoint old.y_sum }

/-- `let chain_code = GE::generator() * chain_code;`
(src/protocols/ecdsa/mod.rs:101): the signing/pubkey path turns the stored
scalar into a point.  The secp256k1 group is cyclic of prime order, so it is
embedded as `ZMod secp256k1GroupOrder` with the generator an arbitrary
element and scalar multiplication the ring product. -/
def chainCodePoint (generator : ZMod secp256k1GroupOrder) (c : ZMod secp256k1GroupOrder) :
    ZMod secp256k1GroupOrder :=
  generator * c

/-! ## Ordinal bookkeeping: filtering out self and reinserting it -/

theorem insertIdx_length_append {α : Type} (A B : List α) (x : α) :
    List.insertIdx A.length x (A ++ B) = A ++ x :: B := by
  induction A with
  | nil => simp
  | cons a A ih => simpa [List.insertIdx_succ_cons] using ih

theorem range'_split (s n : Nat) (h1 : 1 ≤ s) (h2 : s ≤ n) :
    List.range' 1 n = List.range' 1 (s - 1) ++ s :: List.range' (s + 1) (n - s) := by
  have e1 : 1 + 1 * (s - 1) = s := by omega
  have e2 : n - (s - 1) = (n - s) + 1 := by omega
  have e3 : (n - (s - 1)) + (s - 1) = n := by omega
  have h := List.range'_append 1 (s - 1) (n - (s - 1)) 1
  rw [e1, e3] at h
  rw [← h, e2, List.range'_succ]

theorem filter_range'_split (s n : Nat) (h1 : 1 ≤ s) (h2 : s ≤ n) :
    (List.range' 1 n).filter (fun i => i ≠ s)
      = List.range' 1 (s - 1) ++ List.range' (s + 1) (n - s) := by
  have hA : (List.range' 1 (s - 1)).filter (fun i => i ≠ s) = List.range' 1 (s - 1) := by
    rw [List.filter_eq_self]
    intro a ha
    rw [List.mem_range'] at ha
    obtain ⟨j, hj, rfl⟩ := ha
    simp only [ne_eq, decide_not, Bool.not_eq_true', decide_eq_false_iff_not]
    omega
  have hB : (List.range' (s + 1) (n - s)).filter (fun i => i ≠ s)
      = List.range' (s + 1) (n - s) := by
    rw [List.filter_eq_self]
    intro a ha
    rw [List.mem_range'] at ha
    obtain ⟨j, hj, rfl⟩ := ha
    simp only [ne_eq, decide_not, Bool.not_eq_true', decide_eq_false_iff_not]
    omega
  rw [range'_split s n h1 h2, List.filter_append, List.filter_cons]
  simp only [ne_eq, decide_not] at hA hB ⊢
  simp [hA, hB]

theorem insertIdx_self_map {α : Type} (f : Nat → α) (s n : Nat) (h1 : 1 ≤ s) (h2 : s ≤ n) :
    List.insertIdx (s - 1) (f s) (((List.range' 1 n).filter (fun i => i ≠ s)).map f)
      = (List.range' 1 n).map f := by
  rw [filter_range'_split s n h1 h2, List.map_append]
  have hlen : ((List.range' 1 (s - 1)).map f).length = s - 1 := by
    simp [List.length_range']
  have h := insertIdx_length_append ((List.range' 1 (s - 1)).map f)
    ((List.range' (s + 1) (n - s)).map f) (f s)
  rw [hlen] at h
  rw [h, range'_split s n h1 h2, List.map_append, List.map_cons]

theorem exchange_data_eq {α : Type} (f : Nat → α) (s n : Nat) (h1 : 1 ≤ s) (h2 : s ≤ n) :
    exchange_data f s n = (List.range' 1 n).map f := by
  unfold exchange_data
  exact insertIdx_self_map f s n h1 h2

/-! ## The polling loops: fuel exhaustion is unreachable, timeouts are
per-ordinal and prompt -/

theorem pollBLoop_ne_fuelOut (store : Nat → String → Option String) (key : String)
    (timeout start : Nat) :
    ∀ fuel t, start ≤ t → timeout + 1 ≤ 2 * fuel + (t + 1 - start) →
      pollBLoop store key timeout start fuel t ≠ PollOut.fuelOut := by
  intro fuel
  induction fuel with
  | zero =>
    intro t hst h
    cases hs : store (t + 1) key with
    | some v => simp [pollBLoop, hs]
    | none =>
      simp only [pollBLoop, hs]
      split
      · simp
      · next hlt => exfalso; omega
  | succ fuel ih =>
    intro t hst h
    cases hs : store (t + 1) key with
    | some v => simp [pollBLoop, hs]
    | none =>
      simp only [pollBLoop, hs]
      split
      · simp
      · exact ih (t + 2) (by omega) (by omega)

theorem pollPLoop_ne_fuelOut (store : Nat → String → Option String) (key : String)
    (timeout start : Nat) :
    ∀ fuel t, start ≤ t → timeout + 1 ≤ fuel + (t + 1 - start) →
      pollPLoop store key timeout start fuel t ≠ PollOut.fuelOut := by
  intro fuel
  induction fuel with
  | zero =>
    intro t hst h
    cases hs : store (t + 1) key with
    | some v => simp [pollPLoop, hs]
    | none =>
      simp only [pollPLoop, hs]
      split
      · simp
      · next hlt => exfalso; omega
  | succ fuel ih =>
    intro t hst h
    cases hs : store (t + 1) key with
    | some v => simp [pollPLoop, hs]
    | none =>
      simp only [pollPLoop, hs]
      split
      · simp
      · exact ih (t + 1) (by omega) (by omega)

theorem pollBLoop_top_ne_fuelOut (store : Nat → String → Option String) (key : String)
    (timeout t : Nat) :
    pollBLoop store key timeout t (timeout + 1) t ≠ PollOut.fuelOut :=
  pollBLoop_ne_fuelOut store key timeout t (timeout + 1) t (Nat.le_refl t) (by omega)

theorem pollPLoop_top_ne_fuelOut (store : Nat → String → Option String) (key : String)
    (timeout t : Nat) :
    pollPLoop store key timeout t (timeout + 1) t ≠ PollOut.fuelOut :=
  pollPLoop_ne_fuelOut store key timeout t (timeout + 1) t (Nat.le_refl t) (by omega)

theorem pollBLoop_eq (store : Nat → String → Option String) (key : String)
    (timeout start fuel t : Nat) :
    pollBLoop store key timeout start fuel t
      = match store (t + 1) key with
        | some v => PollOut.ok v (t + 1)
        | none =>
          if timeout < t + 1 - start then PollOut.fatal (t + 1)
          else
            match fuel with
            | 0 => PollOut.fuelOut
            | fuel' + 1 => pollBLoop store key timeout start fuel' (t + 2) := by
  cases hs : store (t + 1) key with
  | some v => cases fuel <;> simp [pollBLoop, hs]
  | none => cases fuel <;> simp [pollBLoop, hs]

theorem pollPLoop_eq (store : Nat → String → Option String) (key : String)
    (timeout start fuel t : Nat) :
    pollPLoop store key timeout start fuel t
      = match store (t + 1) key with
        | some v => PollOut.ok v (t + 1)
        | none =>
          if timeout < t + 1 - start then PollOut.fatal (t + 1)
          else
            match fuel with
            | 0 => PollOut.fuelOut
            | fuel' + 1 => pollPLoop store key timeout start fuel' (t + 1) := by
  cases hs : store (t + 1) key with
  | some v => cases fuel <;> simp [pollPLoop, hs]
  | none => cases fuel <;> simp [pollPLoop, hs]

theorem pollBLoop_fatal_bounds (store : Nat → String → Option String) (key : String)
    (timeout start : Nat) :
    ∀ fuel t t', start ≤ t → t ≤ start + timeout + 1 →
      pollBLoop store key timeout start fuel t = PollOut.fatal t' →
      timeout < t' - start ∧ t' ≤ start + timeout + 2 := by
  intro fuel
  induction fuel with
  | zero =>
    intro t t' h1 h2
    rw [pollBLoop_eq]
    cases hs : store (t + 1) key with
    | some v => intro heq; exact PollOut.noConfusion heq
    | none =>
      dsimp only
      intro heq
      split at heq
      · next hlt => simp only [PollOut.fatal.injEq] at heq; omega
      · exact PollOut.noConfusion heq
  | succ fuel ih =>
    intro t t' h1 h2
    rw [pollBLoop_eq]
    cases hs : store (t + 1) key with
    | some v => intro heq; exact PollOut.noConfusion heq
    | none =>
      dsimp only
      intro heq
      split at heq
      · next hlt => simp only [PollOut.fatal.injEq] at heq; omega
      · next hlt => exact ih (t + 2) t' (by omega) (by omega) heq

theorem pollPLoop_fatal_bounds (store : Nat → String → Option String) (key : String)
    (timeout start : Nat) :
    ∀ fuel t t', start ≤ t → t ≤ start + timeout + 1 →
      pollPLoop store key timeout start fuel t = PollOut.fatal t' →
      timeout < t' - start ∧ t' ≤ start + timeout + 2 := by
  intro fuel
  induction fuel with
  | zero =>
    intro t t' h1 h2
    rw [pollPLoop_eq]
    cases hs : store (t + 1) key with
    | some v => intro heq; exact PollOut.noConfusion heq
    | none =>
      dsimp only
      intro heq
      split at heq
      · next hlt => simp only [PollOut.fatal.injEq] at heq; omega
      · exact PollOut.noConfusion heq
  | succ fuel ih =>
    intro t t' h1 h2
    rw [pollPLoop_eq]
    cases hs : store (t + 1) key with
    | some v => intro heq; exact PollOut.noConfusion heq
    | none =>
      dsimp only
      intro heq
      split at heq
      · next hlt => simp only [PollOut.fatal.injEq] at heq; omega
      · next hlt => exact ih (t + 1) t' (by omega) (by omega) heq

theorem pollBRounds_ne_fuelOut (store : Nat → String → Option String)
    (party_num timeout : Nat) (round sender_uuid : String) :
    ∀ l t, pollBRounds store party_num timeout round sender_uuid l t ≠ RunOut.fuelOut := by
  intro l
  induction l with
  | nil => intro t; simp [pollBRounds]
  | cons i rest ih =>
    intro t
    by_cases hi : i = party_num
    · simpa [pollBRounds, hi] using ih t
    · simp only [pollBRounds, if_neg hi]
      cases hloop :
          pollBLoop store (broadcastKey i round sender_uuid) timeout t (timeout + 1) t with
      | ok v t' =>
        simp only [hloop]
        cases hrec : pollBRounds store party_num timeout round sender_uuid rest t' with
        | ok vs t'' => simp [hrec]
        | fatal j t'' => simp [hrec]
        | parseFatal => simp [hrec]
        | fuelOut => exact absurd hrec (ih t')
      | fatal t' => simp [hloop]
      | fuelOut => exact absurd hloop (pollBLoop_top_ne_fuelOut store _ timeout t)

theorem pollPRounds_ne_fuelOut (store : Nat → String → Option String)
    (party_num timeout : Nat) (round sender_uuid : String) :
    ∀ l t, pollPRounds store party_num timeout round sender_uuid l t ≠ RunOut.fuelOut := by
  intro l
  induction l with
  | nil => intro t; simp [pollPRounds]
  | cons i rest ih =>
    intro t
    by_cases hi : i = party_num
    · simpa [pollPRounds, hi] using ih t
    · simp only [pollPRounds, if_neg hi]
      cases hloop :
          pollPLoop store (p2pKey i party_num round sender_uuid) timeout t (timeout + 1) t with
      | ok v t' =>
        simp only [hloop]
        cases hrec : pollPRounds store party_num timeout round sender_uuid rest t' with
        | ok vs t'' => simp [hrec]
        | fatal j t'' => simp [hrec]
        | parseFatal => simp [hrec]
        | fuelOut => exact absurd hrec (ih t')
      | fatal t' => simp [hloop]
      | fuelOut => exact absurd hloop (pollPLoop_top_ne_fuelOut store _ timeout t)

theorem pollBRounds_ok_length (store : Nat → String → Option String)
    (party_num timeout : Nat) (round sender_uuid : String) :
    ∀ l t vs t', pollBRounds store party_num timeout round sender_uuid l t = RunOut.ok vs t' →
      vs.length = (l.filter (fun i => i ≠ party_num)).length := by
  intro l
  induction l with
  | nil =>
    intro t vs t' heq
    simp only [pollBRounds, RunOut.ok.injEq] at heq
    simp [← heq.1]
  | cons i rest ih =>
    intro t vs t' heq
    by_cases hi : i = party_num
    · simp only [pollBRounds, if_pos hi] at heq
      have := ih t vs t' heq
      simpa [List.filter_cons, hi] using this
    · simp only [pollBRounds, if_neg hi] at heq
      cases hloop :
          pollBLoop store (broadcastKey i round sender_uuid) timeout t (timeout + 1) t with
      | ok v t1 =>
        simp only [hloop] at heq
        cases hrec : pollBRounds store party_num timeout round sender_uuid rest t1 with
        | ok vs0 t2 =>
          simp only [hrec, RunOut.ok.injEq] at heq
          have hlen := ih t1 vs0 t2 hrec
          simp [← heq.1, List.filter_cons, hi, hlen]
        | fatal j t2 => simp [hrec] at heq
        | parseFatal => simp [hrec] at heq
        | fuelOut => simp [hrec] at heq
      | fatal t1 => simp [hloop] at heq
      | fuelOut => simp [hloop] at heq

theorem pollPRounds_ok_length (store : Nat → String → Option String)
    (party_num timeout : Nat) (round sender_uuid : String) :
    ∀ l t vs t', pollPRounds store party_num timeout round sender_uuid l t = RunOut.ok vs t' →
      vs.length = (l.filter (fun i => i ≠ party_num)).length := by
  intro l
  induction l with
  | nil =>
    intro t vs t' heq
    simp only [pollPRounds, RunOut.ok.injEq] at heq
    simp [← heq.1]
  | cons i rest ih =>
    intro t vs t' heq
    by_cases hi : i = party_num
    · simp only [pollPRounds, if_pos hi] at heq
      have := ih t vs t' heq
      simpa [List.filter_cons, hi] using this
    · simp only [pollPRounds, if_neg hi] at heq
      cases hloop :
          pollPLoop store (p2pKey i party_num round sender_uuid) timeout t (timeout + 1) t with
      | ok v t1 =>
        simp only [hloop] at heq
        cases hrec : pollPRounds store party_num timeout round sender_uuid rest t1 with
        | ok vs0 t2 =>
          simp only [hrec, RunOut.ok.injEq] at heq
          have hlen := ih t1 vs0 t2 hrec
          simp [← heq.1, List.filter_cons, hi, hlen]
        | fatal j t2 => simp [hrec] at heq
        | parseFatal => simp [hrec] at heq
        | fuelOut => simp [hrec] at heq
      | fatal t1 => simp [hloop] at heq
      | fuelOut => simp [hloop] at heq

theorem pollBRounds_avail (store : Nat → String → Option String)
    (party_num timeout : Nat) (round sender_uuid : String) (v : Nat → String) :
    ∀ l, (∀ i ∈ l, i ≠ party_num → ∀ t, store t (broadcastKey i round sender_uuid) = some (v i)) →
      ∀ t, pollBRounds store party_num timeout round sender_uuid l t
        = RunOut.ok ((l.filter (fun i => i ≠ party_num)).map v)
            (t + (l.filter (fun i => i ≠ party_num)).length) := by
  intro l
  induction l with
  | nil => intro _ t; simp [pollBRounds]
  | cons i rest ih =>
    intro hav t
    by_cases hi : i = party_num
    · simp only [pollBRounds, if_pos hi]
      rw [ih (fun j hj => hav j (List.mem_cons_of_mem i hj)) t]
      simp [List.filter_cons, hi]
    · simp only [pollBRounds, if_neg hi]
      have hst : store (t + 1) (broadcastKey i round sender_uuid) = some (v i) :=
        hav i (List.mem_cons_self i rest) hi (t + 1)
      have hloop : pollBLoop store (broadcastKey i round sender_uuid) timeout t (timeout + 1) t
          = PollOut.ok (v i) (t + 1) := by
        rw [pollBLoop_eq, hst]
      simp only [hloop, ih (fun j hj => hav j (List.mem_cons_of_mem i hj)) (t + 1)]
      simp only [List.filter_cons]
      have hd : decide (i ≠ party_num) = true := by simp [hi]
      rw [if_pos hd]
      simp only [RunOut.ok.injEq, List.map_cons, List.length_cons]
      exact ⟨trivial, by omega⟩

theorem pollBLoop_static_some (σ : String → Option String) (key : String)
    (timeout start fuel t : Nat) (v : String) (h : σ key = some v) :
    pollBLoop (fun _ k => σ k) key timeout start fuel t = PollOut.ok v (t + 1) := by
  rw [pollBLoop_eq]
  simp [h]

theorem pollPLoop_static_some (σ : String → Option String) (key : String)
    (timeout start fuel t : Nat) (v : String) (h : σ key = some v) :
    pollPLoop (fun _ k => σ k) key timeout start fuel t = PollOut.ok v (t + 1) := by
  rw [pollPLoop_eq]
  simp [h]

theorem pollBLoop_static_none_cases (σ : String → Option String) (key : String)
    (timeout start : Nat) (h : σ key = none) :
    ∀ fuel t, (∃ t', pollBLoop (fun _ k => σ k) key timeout start fuel t = PollOut.fatal t')
      ∨ pollBLoop (fun _ k => σ k) key timeout start fuel t = PollOut.fuelOut := by
  intro fuel
  induction fuel with
  | zero =>
    intro t
    rw [pollBLoop_eq]
    simp only [h]
    split
    · exact Or.inl ⟨t + 1, rfl⟩
    · exact Or.inr rfl
  | succ fuel ih =>
    intro t
    rw [pollBLoop_eq]
    simp only [h]
    split
    · exact Or.inl ⟨t + 1, rfl⟩
    · exact ih (t + 2)

theorem pollPLoop_static_none_cases (σ : String → Option String) (key : String)
    (timeout start : Nat) (h : σ key = none) :
    ∀ fuel t, (∃ t', pollPLoop (fun _ k => σ k) key timeout start fuel t = PollOut.fatal t')
      ∨ pollPLoop (fun _ k => σ k) key timeout start fuel t = PollOut.fuelOut := by
  intro fuel
  induction fuel with
  | zero =>
    intro t
    rw [pollPLoop_eq]
    simp only [h]
    split
    · exact Or.inl ⟨t + 1, rfl⟩
    · exact Or.inr rfl
  | succ fuel ih =>
    intro t
    rw [pollPLoop_eq]
    simp only [h]
    split
    · exact Or.inl ⟨t + 1, rfl⟩
    · exact ih (t + 1)

theorem pollBLoop_static_none (σ : String → Option String) (key : String)
    (timeout t : Nat) (h : σ key = none) :
    ∃ t', pollBLoop (fun _ k => σ k) key timeout t (timeout + 1) t = PollOut.fatal t' := by
  rcases pollBLoop_static_none_cases σ key timeout t h (timeout + 1) t with h' | h'
  · exact h'
  · exact absurd h' (pollBLoop_top_ne_fuelOut _ key timeout t)

theorem pollPLoop_static_none (σ : String → Option String) (key : String)
    (timeout t : Nat) (h : σ key = none) :
    ∃ t', pollPLoop (fun _ k => σ k) key timeout t (timeout + 1) t = PollOut.fatal t' := by
  rcases pollPLoop_static_none_cases σ key timeout t h (timeout + 1) t with h' | h'
  · exact h'
  · exact absurd h' (pollPLoop_top_ne_fuelOut _ key timeout t)

theorem pollRounds_static_obs (σB σP : String → Option String) (party_num timeout : Nat)
    (round sender_uuid : String)
    (hrel : ∀ i, σP (p2pKey i party_num round sender_uuid) = σB (broadcastKey i round sender_uuid)) :
    ∀ l tP tB,
      obsRun (pollPRounds (fun _ k => σP k) party_num timeout round sender_uuid l tP)
        = obsRun (pollBRounds (fun _ k => σB k) party_num timeout round sender_uuid l tB) := by
  intro l
  induction l with
  | nil => intro tP tB; simp [pollPRounds, pollBRounds, obsRun]
  | cons i rest ih =>
    intro tP tB
    by_cases hi : i = party_num
    · simp only [pollPRounds, pollBRounds, if_pos hi]
      exact ih tP tB
    · simp only [pollPRounds, pollBRounds, if_neg hi]
      cases hv : σB (broadcastKey i round sender_uuid) with
      | some v =>
        have hB := pollBLoop_static_some σB (broadcastKey i round sender_uuid) timeout tB
          (timeout + 1) tB v hv
        have hP := pollPLoop_static_some σP (p2pKey i party_num round sender_uuid) timeout tP
          (timeout + 1) tP v ((hrel i).trans hv)
        simp only [hB, hP]
        have hobs := ih (tP + 1) (tB + 1)
        cases hP2 : pollPRounds (fun _ k => σP k) party_num timeout round sender_uuid rest
            (tP + 1) with
        | ok vsP tP2 =>
          cases hB2 : pollBRounds (fun _ k => σB k) party_num timeout round sender_uuid rest
              (tB + 1) with
          | ok vsB tB2 =>
            rw [hP2, hB2] at hobs
            simp only [obsRun, ObsRun.ok.injEq] at hobs
            simp [hP2, hB2, obsRun, hobs]
          | fatal j tB2 => rw [hP2, hB2] at hobs; simp [obsRun] at hobs
          | parseFatal => rw [hP2, hB2] at hobs; simp [obsRun] at hobs
          | fuelOut => exact absurd hB2 (pollBRounds_ne_fuelOut _ _ _ _ _ rest (tB + 1))
        | fatal j tP2 =>
          cases hB2 : pollBRounds (fun _ k => σB k) party_num timeout round sender_uuid rest
              (tB + 1) with
          | ok vsB tB2 => rw [hP2, hB2] at hobs; simp [obsRun] at hobs
          | fatal j' tB2 =>
            rw [hP2, hB2] at hobs
            simp only [obsRun, ObsRun.fatal.injEq] at hobs
            simp [hP2, hB2, obsRun, hobs]
          | parseFatal => rw [hP2, hB2] at hobs; simp [obsRun] at hobs
          | fuelOut => exact absurd hB2 (pollBRounds_ne_fuelOut _ _ _ _ _ rest (tB + 1))
        | parseFatal =>
          cases hB2 : pollBRounds (fun _ k => σB k) party_num timeout round sender_uuid rest
              (tB + 1) with
          | ok vsB tB2 => rw [hP2, hB2] at hobs; simp [obsRun] at hobs
          | fatal j' tB2 => rw [hP2, hB2] at hobs; simp [obsRun] at hobs
          | parseFatal => simp [hP2, hB2, obsRun]
          | fuelOut => exact absurd hB2 (pollBRounds_ne_fuelOut _ _ _ _ _ rest (tB + 1))
        | fuelOut => exact absurd hP2 (pollPRounds_ne_fuelOut _ _ _ _ _ rest (tP + 1))
      | none =>
        obtain ⟨tB', hBf⟩ := pollBLoop_static_none σB (broadcastKey i round sender_uuid)
          timeout tB hv
        obtain ⟨tP', hPf⟩ := pollPLoop_static_none σP (p2pKey i party_num round sender_uuid)
          timeout tP ((hrel i).trans hv)
        simp [hBf, hPf, obsRun]

/-- Claim C1: for every party count `n`, self ordinal in `1..=n`, and store
in which each non-self ordinal has a value for the round key,
`poll_for_broadcasts` returns the peers' values in ascending-ordinal order
with the caller's own ordinal skipped, and inserting the caller's own
contribution at index `self_ordinal - 1` (the `bc1_vec.insert` of
src/protocols/eddsa/keygen.rs:80) yields a vector of length `n` whose
element at index `k` belongs to ordinal `k + 1`. -/
theorem c1_collect_broadcasts_ordinal_order
    (store : Nat → String → Option String) (v : Nat → String) (own : String)
    (party_num n timeout : Nat) (round sender_uuid : String)
    (envPollTimeout : Option (List Char)) (t0 : Nat)
    (hEnv : timeoutFromEnv envPollTimeout = some timeout)
    (h1 : 1 ≤ party_num) (h2 : party_num ≤ n)
    (hav : ∀ i, 1 ≤ i → i ≤ n → i ≠ party_num →
      ∀ t, store t (broadcastKey i round sender_uuid) = some (v i)) :
    (∃ tEnd, poll_for_broadcasts store party_num n round sender_uuid envPollTimeout t0
        = RunOut.ok (((List.range' 1 n).filter (fun i => i ≠ party_num)).map v) tEnd)
    ∧ List.insertIdx (party_num - 1) own
        (((List.range' 1 n).filter (fun i => i ≠ party_num)).map v)
        = (List.range' 1 n).map (fun i => if i = party_num then own else v i)
    ∧ (List.insertIdx (party_num - 1) own
        (((List.range' 1 n).filter (fun i => i ≠ party_num)).map v)).length = n
    ∧ ∀ k, k < n → (List.insertIdx (party_num - 1) own
        (((List.range' 1 n).filter (fun i => i ≠ party_num)).map v)).getD k ""
        = if k + 1 = party_num then own else v (k + 1) := by
  have hg : ∀ i ∈ (List.range' 1 n).filter (fun i => i ≠ party_num),
      v i = (fun i => if i = party_num then own else v i) i := by
    intro i hi
    have hne := List.of_mem_filter hi
    simp only [decide_eq_true_eq] at hne
    simp [hne]
  have hmap : ((List.range' 1 n).filter (fun i => i ≠ party_num)).map v
      = ((List.range' 1 n).filter (fun i => i ≠ party_num)).map
          (fun i => if i = party_num then own else v i) :=
    List.map_congr_left hg
  have hins' := insertIdx_self_map (fun i => if i = party_num then own else v i)
    party_num n h1 h2
  dsimp only at hins'
  have hown : (if party_num = party_num then own else v party_num) = own := by simp
  rw [hown] at hins'
  have hins : List.insertIdx (party_num - 1) own
      (((List.range' 1 n).filter (fun i => i ≠ party_num)).map v)
      = (List.range' 1 n).map (fun i => if i = party_num then own else v i) := by
    rw [hmap]
    exact hins'
  refine ⟨?_, hins, ?_, ?_⟩
  · have havl : ∀ i ∈ List.range' 1 n, i ≠ party_num →
        ∀ t, store t (broadcastKey i round sender_uuid) = some (v i) := by
      intro i hi hne t
      rw [List.mem_range'_1] at hi
      exact hav i hi.1 (by omega) hne t
    refine ⟨t0 + ((List.range' 1 n).filter (fun i => i ≠ party_num)).length, ?_⟩
    simp only [poll_for_broadcasts, hEnv]
    exact pollBRounds_avail store party_num timeout round sender_uuid v _ havl t0
  · rw [hins]
    simp [List.length_map, List.length_range']
  · intro k hk
    rw [hins]
    have hlen : ((List.range' 1 n).map
        (fun i => if i = party_num then own else v i)).length = n := by
      simp [List.length_map, List.length_range']
    rw [List.getD_eq_getElem _ _ (by rw [hlen]; exact hk)]
    rw [List.getElem_map]
    simp only [List.getElem_range']
    have he : 1 + 1 * k = k + 1 := by omega
    rw [he]

/-- Claim C3: polling in `poll_for_broadcasts`/`poll_for_p2p` is bounded by
the wall-clock timeout read from `TSS_CLI_POLL_TIMEOUT` (default 30),
measured per awaited ordinal from when polling for that ordinal began
(`start_time`); a fatal timeout panic fires only once that window is
strictly exceeded and within two ticks of exceeding it; a normal return
always carries one answer per awaited ordinal (no peer silently skipped);
and the loops can never run forever (fuel exhaustion is unreachable). -/
theorem c3_poll_timeout_fatal
    (store : Nat → String → Option String) (party_num n timeout : Nat)
    (round sender_uuid : String) (envPollTimeout : Option (List Char)) (t0 : Nat) :
    timeoutFromEnv none = some 30
    ∧ poll_for_broadcasts store party_num n round sender_uuid envPollTimeout t0 ≠ RunOut.fuelOut
    ∧ poll_for_p2p store party_num n round sender_uuid envPollTimeout t0 ≠ RunOut.fuelOut
    ∧ (∀ vs t', poll_for_broadcasts store party_num n round sender_uuid envPollTimeout t0
          = RunOut.ok vs t' →
        vs.length = ((List.range' 1 n).filter (fun i => i ≠ party_num)).length)
    ∧ (∀ vs t', poll_for_p2p store party_num n round sender_uuid envPollTimeout t0
          = RunOut.ok vs t' →
        vs.length = ((List.range' 1 n).filter (fun i => i ≠ party_num)).length)
    ∧ (∀ key start t',
        pollBLoop store key timeout start (timeout + 1) start = PollOut.fatal t' →
        timeout < t' - start ∧ t' ≤ start + timeout + 2)
    ∧ (∀ key start t',
        pollPLoop store key timeout start (timeout + 1) start = PollOut.fatal t' →
        timeout < t' - start ∧ t' ≤ start + timeout + 2) := by
  refine ⟨by decide, ?_, ?_, ?_, ?_, ?_, ?_⟩
  · cases hEnv : timeoutFromEnv envPollTimeout with
    | none => simp [poll_for_broadcasts, hEnv]
    | some tmo =>
      simp only [poll_for_broadcasts, hEnv]
      exact pollBRounds_ne_fuelOut store party_num tmo round sender_uuid (List.range' 1 n) t0
  · cases hEnv : timeoutFromEnv envPollTimeout with
    | none => simp [poll_for_p2p, hEnv]
    | some tmo =>
      simp only [poll_for_p2p, hEnv]
      exact pollPRounds_ne_fuelOut store party_num tmo round sender_uuid (List.range' 1 n) t0
  · intro vs t' heq
    cases hEnv : timeoutFromEnv envPollTimeout with
    | none => rw [poll_for_broadcasts, hEnv] at heq; exact RunOut.noConfusion heq
    | some tmo =>
      rw [poll_for_broadcasts, hEnv] at heq
      exact pollBRounds_ok_length store party_num tmo round sender_uuid (List.range' 1 n)
        t0 vs t' heq
  · intro vs t' heq
    cases hEnv : timeoutFromEnv envPollTimeout with
    | none => rw [poll_for_p2p, hEnv] at heq; exact RunOut.noConfusion heq
    | some tmo =>
      rw [poll_for_p2p, hEnv] at heq
      exact pollPRounds_ok_length store party_num tmo round sender_uuid (List.range' 1 n)
        t0 vs t' heq
  · intro key start t' heq
    exact pollBLoop_fatal_bounds store key timeout start (timeout + 1) start t'
      (Nat.le_refl start) (by omega) heq
  · intro key start t' heq
    exact pollPLoop_fatal_bounds store key timeout start (timeout + 1) start t'
      (Nat.le_refl start) (by omega) heq

/-- Claim C7 counterexample: `poll_for_p2p` is not behaviorally identical to
`poll_for_broadcasts` up to key construction.  On a store that serves every
key identically (so key construction cannot matter) and makes the value
appear at tick 2, the two functions return at different ticks, because
`poll_for_broadcasts` sleeps the delay before and after a failed `get` while
`poll_for_p2p` sleeps only before it. -/
theorem c7_sleep_pattern_differs :
    poll_for_p2p (fun t _ => if 2 ≤ t then some "v" else none) 1 2 "r" "u" none 0
      ≠ poll_for_broadcasts (fun t _ => if 2 ≤ t then some "v" else none) 1 2 "r" "u" none 0 := by
  decide

/-- Claim C7 (amended): `poll_for_p2p` behaves like `poll_for_broadcasts`
observationally — same collected values in the same ascending-ordinal order
and the same ok/fatal outcome — on any store whose contents do not change
while polling, differing only in its store keys, which are built from
`(sender, self_ordinal, round, session)` instead of `(sender, round,
session)`, and in its sleep pattern (one fixed delay before each `get`
attempt rather than one before and one after), which shifts timing only. -/
theorem c7_p2p_broadcast_obs_equiv
    (σB σP : String → Option String) (party_num n : Nat) (round sender_uuid : String)
    (envPollTimeout : Option (List Char)) (tP tB : Nat)
    (hrel : ∀ i, σP (p2pKey i party_num round sender_uuid)
        = σB (broadcastKey i round sender_uuid)) :
    obsRun (poll_for_p2p (fun _ k => σP k) party_num n round sender_uuid envPollTimeout tP)
      = obsRun (poll_for_broadcasts (fun _ k => σB k) party_num n round sender_uuid
          envPollTimeout tB) := by
  cases hEnv : timeoutFromEnv envPollTimeout with
  | none => simp [poll_for_p2p, poll_for_broadcasts, hEnv, obsRun]
  | some timeout =>
    simp only [poll_for_p2p, poll_for_broadcasts, hEnv]
    exact pollRounds_static_obs σB σP party_num timeout round sender_uuid hrel
      (List.range' 1 n) tP tB

/-- Witness for C1 at a concrete 3-party store (self ordinal 2). -/
theorem c1_collect_broadcasts_ordinal_order_witness :
    (∃ tEnd, poll_for_broadcasts
        (fun _ k => if k = "1-r-u" then some "v1" else if k = "3-r-u" then some "v3" else none)
        2 3 "r" "u" none 0
        = RunOut.ok (((List.range' 1 3).filter (fun i => i ≠ 2)).map
            (fun i => if i = 1 then "v1" else "v3")) tEnd)
    ∧ List.insertIdx 1 "me" (((List.range' 1 3).filter (fun i => i ≠ 2)).map
        (fun i => if i = 1 then "v1" else "v3"))
        = (List.range' 1 3).map
            (fun i => if i = 2 then "me" else if i = 1 then "v1" else "v3")
    ∧ (List.insertIdx 1 "me" (((List.range' 1 3).filter (fun i => i ≠ 2)).map
        (fun i => if i = 1 then "v1" else "v3"))).length = 3
    ∧ ∀ k, k < 3 → (List.insertIdx 1 "me" (((List.range' 1 3).filter (fun i => i ≠ 2)).map
        (fun i => if i = 1 then "v1" else "v3"))).getD k ""
        = if k + 1 = 2 then "me" else if k + 1 = 1 then "v1" else "v3" := by
  exact c1_collect_broadcasts_ordinal_order
    (fun _ k => if k = "1-r-u" then some "v1" else if k = "3-r-u" then some "v3" else none)
    (fun i => if i = 1 then "v1" else "v3") "me" 2 3 30 "r" "u" none 0
    (by decide) (by decide) (by decide)
    (by intro i hi1 hi2 hne t
        interval_cases i
        · rfl
        · exact absurd rfl hne
        · rfl)

/-- Witness for C7's amended equivalence at a concrete static store and
distinct starting clocks. -/
theorem c7_p2p_broadcast_obs_equiv_witness :
    obsRun (poll_for_p2p (fun _ _ => some "x") 1 2 "r" "u" none 5)
      = obsRun (poll_for_broadcasts (fun _ _ => some "x") 1 2 "r" "u" none 0) :=
  c7_p2p_broadcast_obs_equiv (fun _ => some "x") (fun _ => some "x") 1 2 "r" "u" none 5 0
    (fun _ => rfl)

/-! ## Chain-code agreement -/

theorem foldl_add_eq_sum {α : Type} [AddCommMonoid α] :
    ∀ (t : List α) (h : α), t.foldl (· + ·) h = h + t.sum := by
  intro t
  induction t with
  | nil => intro h; simp
  | cons a t ih => intro h; simp [List.foldl_cons, ih, List.sum_cons, add_assoc]

theorem foldSum_eq_sum {α : Type} [AddCommMonoid α] (l : List α) (hl : l ≠ []) :
    foldSum l = some l.sum := by
  cases l with
  | nil => exact absurd rfl hl
  | cons h t => simp [foldSum, foldl_add_eq_sum, List.sum_cons]

theorem foldSum_perm {α : Type} [AddCommMonoid α] (l l' : List α) (hp : l.Perm l') :
    foldSum l = foldSum l' := by
  by_cases hl : l = []
  · subst hl
    have hl' : l' = [] := hp.symm.eq_nil
    rw [hl']
  · have hl' : l' ≠ [] := by
      intro h
      subst h
      exact hl hp.eq_nil
    rw [foldSum_eq_sum l hl, foldSum_eq_sum l' hl', hp.sum_eq]

theorem range_all_getD (l : List Bool) (yl : Nat) (hl : l.length = yl) :
    ((List.range yl).all (fun i => l.getD i false) = true) ↔ ∀ b ∈ l, b = true := by
  rw [List.all_eq_true]
  constructor
  · intro h b hb
    obtain ⟨i, hi, rfl⟩ := List.mem_iff_getElem.mp hb
    have hr := h i (List.mem_range.mpr (by omega))
    rwa [List.getD_eq_getElem l false (by omega)] at hr
  · intro h i hi
    rw [List.mem_range] at hi
    rw [List.getD_eq_getElem l false (by omega)]
    exact h _ (List.getElem_mem (by omega))

/-- Claim C2: for every cohort of size at least 1 in which every round-0
dlog proof verifies, the chain code computed by `generate_shared_chain_code`
is the sum of all parties' contributed scalars (the caller's own plus every
collected one), and the `split_at`/fold reduction gives the same result for
every order in which the broadcast contributions are collected (any
permutation of the collected vector). -/
theorem c2_chain_code_sum {α : Type} [AddCommMonoid α] (contrib : Nat → α)
    (proofOk : Nat → Bool) (party_num_int n : Nat)
    (h1 : 1 ≤ party_num_int) (h2 : party_num_int ≤ n)
    (hok : ∀ i, proofOk i = true) :
    generate_shared_chain_code contrib proofOk party_num_int n n
      = some (((List.range' 1 n).map contrib).sum)
    ∧ ∀ l l' : List α, l.Perm l' → foldSum l = foldSum l' := by
  constructor
  · unfold generate_shared_chain_code
    have hx := exchange_data_eq proofOk party_num_int n h1 h2
    have hxc := exchange_data_eq contrib party_num_int n h1 h2
    rw [hx, hxc]
    have hlen : ((List.range' 1 n).map proofOk).length = n := by
      simp [List.length_range']
    have hall :
        ((List.range n).all (fun i => ((List.range' 1 n).map proofOk).getD i false)) = true := by
      rw [range_all_getD _ n hlen]
      intro b hb
      obtain ⟨i, hi, rfl⟩ := List.mem_map.mp hb
      exact hok i
    simp only [verify_dlog_proofs, hlen, if_pos rfl, hall, if_true]
    rw [foldSum_eq_sum]
    apply List.ne_nil_of_length_pos
    simp [List.length_range']
    omega
  · exact fun l l' hp => foldSum_perm l l' hp

/-- Witness for C2 with natural-number scalars, cohort of ordinals 1 and 2,
self ordinal 1. -/
theorem c2_chain_code_sum_witness :
    generate_shared_chain_code (fun i => (i : Nat)) (fun _ => true) 1 2 2
      = some (((List.range' 1 2).map (fun i => (i : Nat))).sum)
    ∧ ∀ l l' : List Nat, l.Perm l' → foldSum l = foldSum l' :=
  c2_chain_code_sum (fun i => (i : Nat)) (fun _ => true) 1 2 (by decide) (by decide)
    (fun _ => rfl)

/-- Claim C10: when `dlog_proofs_vec` has length `share_count` and
`y_vec_len` equals `share_count`, both entry assertions of
`verify_dlog_proofs` hold and it returns `Ok` exactly when every proof
verifies, and `Err(InvalidKey)` otherwise; when either length differs from
`share_count`, an assertion fails instead of returning. -/
theorem c10_verify_dlog_proofs_contract (share_count : Nat) (dlog_proofs_vec : List Bool)
    (y_vec_len : Nat) :
    ((dlog_proofs_vec.length = share_count ∧ y_vec_len = share_count) →
      verify_dlog_proofs share_count dlog_proofs_vec y_vec_len ≠ VerifyOut.assertFail
      ∧ (verify_dlog_proofs share_count dlog_proofs_vec y_vec_len = VerifyOut.ok
          ↔ ∀ b ∈ dlog_proofs_vec, b = true)
      ∧ (verify_dlog_proofs share_count dlog_proofs_vec y_vec_len = VerifyOut.invalidKey
          ↔ ¬ ∀ b ∈ dlog_proofs_vec, b = true))
    ∧ ((¬ (dlog_proofs_vec.length = share_count ∧ y_vec_len = share_count)) →
      verify_dlog_proofs share_count dlog_proofs_vec y_vec_len = VerifyOut.assertFail) := by
  constructor
  · rintro ⟨hlen, hyl⟩
    have hly : dlog_proofs_vec.length = y_vec_len := by omega
    have hiff := range_all_getD dlog_proofs_vec y_vec_len hly
    simp only [verify_dlog_proofs, if_pos hyl, if_pos hlen]
    by_cases hall :
        (List.range y_vec_len).all (fun i => dlog_proofs_vec.getD i false) = true
    · rw [if_pos hall]
      refine ⟨by simp, ?_, ?_⟩
      · exact iff_of_true rfl (hiff.mp hall)
      · exact iff_of_false (by simp) (not_not_intro (hiff.mp hall))
    · rw [if_neg hall]
      have hnall : ¬ ∀ b ∈ dlog_proofs_vec, b = true := fun hforall => hall (hiff.mpr hforall)
      refine ⟨by simp, ?_, ?_⟩
      · exact iff_of_false (by simp) hnall
      · exact iff_of_true rfl hnall
  · intro hne
    simp only [verify_dlog_proofs]
    by_cases hy : y_vec_len = share_count
    · rw [if_pos hy]
      have hl : dlog_proofs_vec.length ≠ share_count := fun hl => hne ⟨hl, hy⟩
      rw [if_neg hl]
    · rw [if_neg hy]

/-- Witness for C10: a matching call returning `Ok` and a length-mismatched
call hitting the assertion. -/
theorem c10_verify_dlog_proofs_contract_witness :
    verify_dlog_proofs 2 [true, true] 2 = VerifyOut.ok
    ∧ verify_dlog_proofs 2 [true] 2 = VerifyOut.assertFail := by
  constructor
  · exact ((c10_verify_dlog_proofs_contract 2 [true, true] 2).1 (by decide)).2.1.mpr (by decide)
  · exact (c10_verify_dlog_proofs_contract 2 [true] 2).2 (by decide)

/-- Claim C5 names a real defect: `postb` declares `let retries = 3;` and
the spec promises three POST attempts, but the loop `for _i in 1..retries`
runs only two iterations.  A request that fails twice and would succeed on
the third attempt is reported unreachable after exactly two attempts; a
success on an early attempt is still returned immediately. -/
theorem c5_postb_two_attempts :
    retries = 3
    ∧ postb (fun i => if i = 3 then some "ok" else none) = none
    ∧ (postbTrace (fun _ => none)).2 = 2
    ∧ postb (fun _ => some "ok") = some "ok" := by
  decide

/-! ## Transport encryption -/

theorem idealAEAD_correct : idealAEAD.Correct := by
  intro k n m
  simp [idealAEAD, Nat.unpair_pair, Denumerable.ofNat_encode]

theorem idealAEAD_authentic : idealAEAD.Authentic := by
  intro k n c p h
  cases c with
  | nil => simp [idealAEAD] at h
  | cons x c' =>
    cases c' with
    | cons y rest => simp [idealAEAD] at h
    | nil =>
      simp only [idealAEAD] at h
      by_cases hc : (Nat.unpair x).1 = Encodable.encode k ∧
          (Nat.unpair (Nat.unpair x).2).1 = Encodable.encode n
      · rw [if_pos hc] at h
        obtain ⟨h1, h2⟩ := hc
        injection h with h3
        subst h3
        show [x] = idealAEAD.enc k n _
        simp only [idealAEAD]
        rw [Denumerable.encode_ofNat, ← h1, ← h2]
        have hx : x = Nat.pair (Nat.unpair x).1
            (Nat.pair (Nat.unpair (Nat.unpair x).2).1 (Nat.unpair (Nat.unpair x).2).2) := by
          rw [Nat.pair_unpair, Nat.pair_unpair]
        rw [← hx]
      · rw [if_neg hc] at h
        exact Option.noConfusion h

/-- Claim C4: for every 32-byte key and plaintext, decrypting a fresh
encryption returns the plaintext unchanged (the nonce travels in the `tag`
field); and whenever the presented pack is not a genuine seal under the
presented key and carried nonce — which is what a wrong key or a tampered
ciphertext/nonce produces, by the cipher's authentication contract —
`aes_decrypt` fails (the `unwrap` panic), never returning truncated or
garbage plaintext: a successful decryption always returns the exact
plaintext whose seal the pack carries. -/
theorem c4_aead_roundtrip_reject (S : AEADScheme) (hc : S.Correct) (ha : S.Authentic) :
    (∀ key nonce m, key.length = 32 →
      aes_decrypt S key (aes_encrypt S key nonce m) = some m)
    ∧ (∀ key pack, (∀ m, pack.ciphertext ≠ S.enc key pack.tag m) →
      aes_decrypt S key pack = none)
    ∧ (∀ key pack p, aes_decrypt S key pack = some p →
      pack.ciphertext = S.enc key pack.tag p) := by
  refine ⟨?_, ?_, ?_⟩
  · intro key nonce m _
    simp [aes_decrypt, aes_encrypt, hc key nonce m]
  · intro key pack hm
    cases hdec : aes_decrypt S key pack with
    | none => rfl
    | some p => exact absurd (ha key pack.tag pack.ciphertext p hdec) (hm p)
  · intro key pack p h
    exact ha key pack.tag pack.ciphertext p h

/-- Witness for C4: the contract hypotheses are satisfiable (`idealAEAD`)
and the round trip holds at a concrete 32-byte key. -/
theorem c4_aead_roundtrip_reject_witness :
    aes_decrypt idealAEAD (List.replicate 32 0)
      (aes_encrypt idealAEAD (List.replicate 32 0) [7] [1, 2]) = some [1, 2] :=
  (c4_aead_roundtrip_reject idealAEAD idealAEAD_correct idealAEAD_authentic).1
    (List.replicate 32 0) [7] [1, 2] (by simp)

/-! ## Signing-room signup -/

theorem signupLoop_no_progress (resp : Nat → Except String SigningPartySignup)
    (timeout lt : Nat)
    (hresp : ∀ k, ∃ r, resp k = Except.ok r ∧ r.room_uuid = "" ∧ r.total_joined = lt) :
    ∀ fuel k number resetT t, resetT ≤ t →
      timeout + 1 ≤ fuel + (t + 1 - resetT) →
      signupLoop resp timeout fuel k number "" lt resetT t = SignupOut.fatalNoRoom := by
  intro fuel
  induction fuel with
  | zero =>
    intro k number resetT t hrt h
    obtain ⟨r, hr, hru, hrt2⟩ := hresp k
    have hreset : resetTimer lt resetT (t + 1) r = (lt, resetT) := by
      simp [resetTimer, hrt2]
    simp only [signupLoop, hr, hreset]
    rw [if_pos trivial, if_pos (show timeout < t + 1 - resetT by omega), if_pos hru]
  | succ fuel ih =>
    intro k number resetT t hrt h
    obtain ⟨r, hr, hru, hrt2⟩ := hresp k
    have hreset : resetTimer lt resetT (t + 1) r = (lt, resetT) := by
      simp [resetTimer, hrt2]
    simp only [signupLoop, hr, hreset]
    rw [if_pos trivial]
    by_cases hlt : timeout < t + 1 - resetT
    · rw [if_pos hlt, if_pos hru]
    · rw [if_neg hlt, hru]
      exact ih (k + 1) (adoptOrder number r) resetT (t + 1) (by omega) (by omega)

/-- Claim C6: when the relay keeps answering with an empty `room_uuid` and a
`total_joined` that never changes from the first response's, `signup` aborts
fatally ("Could not get room uuid") after the inactivity window read from
`TSS_CLI_SIGNUP_TIMEOUT` (default 30) rather than polling forever; the
latest `party_order` from each response is always adopted, and the
inactivity instant is reset whenever `total_joined` grows. -/
theorem c6_signup_inactivity_fatal (first : SigningPartySignup)
    (resp : Nat → Except String SigningPartySignup)
    (envSignupTimeout : Option (List Char)) (timeout : Nat)
    (hEnv : timeoutFromEnv envSignupTimeout = some timeout)
    (hfirst : first.room_uuid = "")
    (hresp : ∀ k, ∃ r, resp k = Except.ok r ∧ r.room_uuid = ""
        ∧ r.total_joined = first.total_joined) :
    signup (Except.ok first) resp envSignupTimeout = SignupOut.fatalNoRoom
    ∧ timeoutFromEnv none = some 30
    ∧ (∀ number r, adoptOrder number r = r.party_order)
    ∧ (∀ lastTotal resetT tNow r, lastTotal < r.total_joined →
        (resetTimer lastTotal resetT tNow r).2 = tNow) := by
  refine ⟨?_, by decide, ?_, ?_⟩
  · simp only [signup, hEnv, hfirst]
    exact signupLoop_no_progress resp timeout first.total_joined hresp (timeout + 2) 0
      first.party_order 0 0 (Nat.le_refl 0) (by omega)
  · intro number r
    by_cases h : number = r.party_order
    · simp [adoptOrder, h]
    · simp [adoptOrder, h]
  · intro lastTotal resetT tNow r hlt
    have hne : r.total_joined ≠ lastTotal := by omega
    simp [resetTimer, hne]

/-- Witness for C6: a relay stuck at two joiners and no room uuid. -/
theorem c6_signup_inactivity_fatal_witness :
    signup (Except.ok ⟨1, "pu", "", 2⟩) (fun _ => Except.ok ⟨1, "pu", "", 2⟩) none
      = SignupOut.fatalNoRoom
    ∧ timeoutFromEnv none = some 30
    ∧ (∀ number r, adoptOrder number r = r.party_order)
    ∧ (∀ lastTotal resetT tNow r, lastTotal < r.total_joined →
        (resetTimer lastTotal resetT tNow r).2 = tNow) :=
  c6_signup_inactivity_fatal ⟨1, "pu", "", 2⟩ (fun _ => Except.ok ⟨1, "pu", "", 2⟩) none 30
    (by decide) rfl (fun _ => ⟨⟨1, "pu", "", 2⟩, rfl, rfl, rfl⟩)

/-! ## Transport-key byte derivation and the store-file conversion -/

theorem fromBE_append_replicate_zero (k : Nat) (bs : List Nat) :
    fromBE (List.replicate k 0 ++ bs) = fromBE bs := by
  simp only [fromBE, List.foldl_append]
  congr 1
  induction k with
  | zero => rfl
  | succ k ih => simpa [List.replicate_succ] using ih

theorem fromBE_beBytesAux : ∀ fuel n, n ≤ fuel → fromBE (beBytesAux fuel n) = n := by
  intro fuel
  induction fuel with
  | zero =>
    intro n hn
    have h0 : n = 0 := by omega
    subst h0
    rfl
  | succ fuel ih =>
    intro n hn
    by_cases h0 : n = 0
    · subst h0; rfl
    · have hdivlt : n / 256 < n := Nat.div_lt_self (Nat.pos_of_ne_zero h0) (by decide)
      have hih := ih (n / 256) (by omega)
      simp only [beBytesAux, if_neg h0, fromBE, List.foldl_append] at *
      rw [hih]
      simp
      omega

/-- Claim C8: for every x-coordinate occupying at most 32 bytes, the derived
transport-encryption key of `run_keygen` is defined (no `usize` underflow),
is exactly `AES_KEY_BYTES_LEN = 32` bytes long, equals the big-endian bytes
of the x-coordinate left-padded with zero bytes, and reading those 32 bytes
back as a big-endian integer recovers the x-coordinate exactly. -/
theorem c8_enc_key_32_bytes (x : Nat) (hx : (beBytes x).length ≤ AES_KEY_BYTES_LEN) :
    ∃ keyBytes, deriveEncKey x = some keyBytes
      ∧ keyBytes.length = AES_KEY_BYTES_LEN
      ∧ keyBytes = List.replicate (AES_KEY_BYTES_LEN - (beBytes x).length) 0 ++ beBytes x
      ∧ fromBE keyBytes = x := by
  refine ⟨List.replicate (AES_KEY_BYTES_LEN - (beBytes x).length) 0 ++ beBytes x,
    ?_, ?_, rfl, ?_⟩
  · simp [deriveEncKey, hx]
  · simp only [List.length_append, List.length_replicate]
    omega
  · rw [fromBE_append_replicate_zero]
    exact fromBE_beBytesAux x x (Nat.le_refl x)

/-- Witness for C8 at the two-byte x-coordinate 258 = 0x0102. -/
theorem c8_enc_key_32_bytes_witness :
    ∃ keyBytes, deriveEncKey 258 = some keyBytes
      ∧ keyBytes.length = AES_KEY_BYTES_LEN
      ∧ keyBytes = List.replicate (AES_KEY_BYTES_LEN - (beBytes 258).length) 0 ++ beBytes 258
      ∧ fromBE keyBytes = 258 :=
  c8_enc_key_32_bytes 258 (by decide)

/-- Claim C9: converting an old-format (chain-code-less) bundle writes a
new-format bundle whose chain-code field is the scalar 1, so the
signing/pubkey path, which multiplies the stored chain code by the group
generator, reproduces exactly the generator point that previous versions
used as the chain code. -/
theorem c9_conversion_chain_code (OK OSK OV OG K SK V P G : Type)
    (convKeys : OK → K) (convShared : OSK → SK) (convVss : OV → V) (convPoint : OG → G)
    (old : OldEcdsaStore OK OSK OV P OG) :
    (convert_store_file convKeys convShared convVss convPoint old).chain_code
        = fixed_chain_code
    ∧ fixed_chain_code = 1
    ∧ ∀ generator : ZMod secp256k1GroupOrder,
        chainCodePoint generator
          (convert_store_file convKeys convShared convVss convPoint old).chain_code
          = generator := by
  refine ⟨rfl, rfl, ?_⟩
  intro generator
  simp [chainCodePoint, convert_store_file, fixed_chain_code]
